import Mathlib

/-!
A shallow embedding of the stream-to-message layer of the node-experiment
server (src/node_server/index.ts and the newline-echo variant in
src/unnamed/part_000), together with theorems checking the specification's
claims against it.

Buffers (Node `Buffer`) are modelled as lists of byte values (`List Nat`);
all inputs of interest are ASCII, so JS-string operations on
`buffer.toString()` are modelled directly on the byte lists.
-/

deriving instance DecidableEq for Except

namespace NodeServer

abbrev Byte := Nat
abbrev Bytes := List Byte

/-- `String → Bytes`, for writing concrete ASCII inputs. -/
def toBytes (s : String) : Bytes := s.data.map Char.toNat

/-- `type DynBuf = { data: Buffer; length: number }` — the growable
accumulator.  `data` is the backing store (capacity = `data.length`),
`length` the logical number of live bytes. -/
structure DynBuf where
  data : Bytes
  length : Nat
deriving Repr, DecidableEq

/-- The live region `buf.data.subarray(0, buf.length)`. -/
def live (buf : DynBuf) : Bytes := buf.data.take buf.length

/-- Backing capacity of the accumulator. -/
def capacity (buf : DynBuf) : Nat := buf.data.length

/-- The `while (cap < newLen) cap *= 2;` loop of `bufPush`, written with
a step budget so it is structurally recursive (and so reduces in the
kernel).  The budget is spent once per doubling. -/
def growCapFuel : Nat → Nat → Nat → Nat
  | 0, cap, _ => cap
  | Nat.succ fuel, cap, newLen =>
      if cap < newLen then growCapFuel fuel (cap * 2) newLen else cap

/-- `cap = Math.max(buf.data.length, 32); while (cap < newLen) cap *= 2;`.
A budget of `newLen` doublings always suffices: the source calls this
with `cap ≥ 32`, and doubling from any positive `cap` reaches `newLen`
within `newLen` steps (`newLen ≤ cap * 2 ^ newLen`), so the budget never
runs out on the source's calls. -/
def growCap (cap newLen : Nat) : Nat := growCapFuel newLen cap newLen

/-- `function bufPush(buf: DynBuf, data: Buffer): void` — append `d` at
offset `buf.length`, first growing the backing store by doubling (floor 32)
when `buf.data.length < buf.length + d.length`.  `Buffer.alloc` zero-fills,
and the whole old backing store is copied into the grown one. -/
def bufPush (buf : DynBuf) (d : Bytes) : DynBuf :=
  let newLen := buf.length + d.length
  let data1 :=
    if buf.data.length < newLen then
      let cap := growCap (max buf.data.length 32) newLen
      buf.data ++ List.replicate (cap - buf.data.length) 0
    else buf.data
  { data := data1.take buf.length ++ d ++ data1.drop (buf.length + d.length),
    length := newLen }

/-- `function bufPop(buf: DynBuf, len: number): void` —
`buf.data.copyWithin(0, len, buf.length); buf.length -= len;`.
`copyWithin` clamps its end index to the backing size and never changes
the backing size; bytes past the copied region keep their old values. -/
def bufPop (buf : DynBuf) (len : Nat) : DynBuf :=
  let e := min buf.length buf.data.length
  { data := (buf.data.drop len).take (e - len) ++ buf.data.drop (e - len),
    length := buf.length - len }

/-- Does `pat` occur at the head of `l`? (helper for `indexOfSub`). -/
def prefEq (pat l : Bytes) : Bool :=
  match pat, l with
  | [], _ => true
  | _ :: _, [] => false
  | p :: ps, x :: xs => p == x && prefEq ps xs

/-- `buffer.indexOf(needle)` — index of the first occurrence of the byte
sequence `pat` in `l`, `none` standing for JS's `-1`. -/
def indexOfSub (l pat : Bytes) : Option Nat :=
  match l with
  | [] => if pat.isEmpty then some 0 else none
  | _ :: t => if prefEq pat l then some 0 else (indexOfSub t pat).map (· + 1)

/-- Recursion core of `splitSep`, with a step budget so it is
structurally recursive.  Every split consumes at least one byte of `s`
(for a non-empty separator), so a budget of `s.length + 1` splits never
runs out. -/
def splitSepFuel (sep : Bytes) : Nat → Bytes → List Bytes
  | 0, s => [s]
  | Nat.succ fuel, s =>
      match indexOfSub s sep with
      | none => [s]
      | some i =>
          if s.isEmpty || sep.isEmpty then [s]
          else s.take i :: splitSepFuel sep fuel (s.drop (i + sep.length))

/-- JS `String.prototype.split(sep)` for a non-empty separator: split at
every (left-to-right, non-overlapping) occurrence of `sep`.  The source
only ever splits on `": "` and `" "`; the `[s]` result on an empty
separator or empty input with a found index is a totality guard for
arguments the source never passes. -/
def splitSep (sep s : Bytes) : List Bytes := splitSepFuel sep (s.length + 1) s

/-- `HTTPError(code, message)`. -/
structure HTTPError where
  code : Nat
  message : String
deriving Repr, DecidableEq

/-- `type HTTPReq` — a parsed HTTP request header.  Strings are kept as
byte lists (`method`/`version` are JS strings in the source, but all
comparisons on them are byte-wise for ASCII input). -/
structure HTTPReq where
  method : Bytes
  uri : Bytes
  version : Bytes
  headers : List Bytes
deriving Repr, DecidableEq

/-- The scanning loop of `splitLines`: from position `i` (with the current
line starting at `start`), look for `\r\n` pairs while `i < buf.length - 1`;
on a match push `buf.subarray(start, i)` and restart after the pair.  The
step budget is spent once per position advanced; `i` grows by at least 1
per step, so `buf.length + 1` steps always cover the scan. -/
def splitLinesAux (buf : Bytes) : Nat → Nat → Nat → List Bytes
  | 0, _, _ => []
  | Nat.succ fuel, i, start =>
      if i + 1 < buf.length then
        if buf.getD i 0 = 13 ∧ buf.getD (i + 1) 0 = 10 then
          ((buf.drop start).take (i - start)) :: splitLinesAux buf fuel (i + 2) (i + 2)
        else
          splitLinesAux buf fuel (i + 1) start
      else []

/-- `function splitLines(buf: Buffer): Buffer[]` — cut `buf` at every
`\r\n`; bytes after the last `\r\n` are not returned as a line. -/
def splitLines (buf : Bytes) : List Bytes := splitLinesAux buf (buf.length + 1) 0 0

/-- `": "` as bytes. -/
def colonSpace : Bytes := [58, 32]

/-- `function validateHeader(header: Buffer): boolean` —
`const [key, value] = header.toString().split(": "); return !!(key && value)`
(both the key and the value part must exist and be non-empty). -/
def validateHeader (header : Bytes) : Bool :=
  match splitSep colonSpace header with
  | k :: v :: _ => !k.isEmpty && !v.isEmpty
  | _ => false

/-- The header loop of `parseHTTPReq` (`for i = 1 .. lines.length-1`):
collect each line, throwing `400 Invalid header` at the first line that
fails `validateHeader`. -/
def collectHeaders (ls : List Bytes) : Except HTTPError (List Bytes) :=
  match ls with
  | [] => .ok []
  | l :: rest =>
      if validateHeader l then
        (collectHeaders rest).map (l :: ·)
      else
        .error ⟨400, "Invalid header, line: " ++ String.mk (l.map Char.ofNat)⟩

/-- JS string-or-undefined, for `firstLine?.toString() ... ?? []` and the
error-message interpolation of `parseHTTPReq`. -/
def jsShow (o : Option Bytes) : String :=
  match o with
  | none => "undefined"
  | some b => String.mk (b.map Char.ofNat)

/-- `function parseHTTPReq(buf: Buffer): HTTPReq` — split into `\r\n`
lines; split line 0 on single spaces into `[method, uri, version]`
(extra tokens are ignored by the destructuring); validate every further
line as a header; finally reject if any of the three request-line tokens
is missing or empty. -/
def parseHTTPReq (buf : Bytes) : Except HTTPError HTTPReq :=
  let lines := splitLines buf
  let parts :=
    match lines with
    | [] => []
    | l :: _ => splitSep [32] l
  let method := parts.getD 0 []
  let uri := parts.getD 1 []
  let version := parts.getD 2 []
  match collectHeaders (lines.drop 1) with
  | .error e => .error e
  | .ok headers =>
      if method.isEmpty ∨ uri.isEmpty ∨ version.isEmpty then
        .error ⟨400, "Invalid request, method: " ++ jsShow (parts.get? 0) ++
          ", uri: " ++ jsShow (parts.get? 1) ++ ", version: " ++ jsShow (parts.get? 2)⟩
      else
        .ok { method := method, uri := uri, version := version, headers := headers }

/-- `const splitter = "\r\n\r\n"`. -/
def splitter : Bytes := [13, 10, 13, 10]

/-- `const kMaxHeaderLen = 1024 * 8`. -/
def kMaxHeaderLen : Nat := 1024 * 8

/-- `function cutMessage(buf: DynBuf): null | HTTPReq` — look for the
first `\r\n\r\n` in the live region; absent: `null` unless the
accumulated length exceeds 8 KiB (then `413`); present at `idx`: parse
`buf.data.subarray(0, idx + 4)` and pop `idx + 1` bytes.  A thrown parse
error propagates before `bufPop` runs, so the buffer is returned popped
only on success. -/
def cutMessage (buf : DynBuf) : Except HTTPError (Option (HTTPReq × DynBuf)) :=
  match indexOfSub (live buf) splitter with
  | none =>
      if buf.length > kMaxHeaderLen then
        .error ⟨413, "Request Header Fields Too Large"⟩
      else
        .ok none
  | some idx =>
      match parseHTTPReq (buf.data.take (idx + 4)) with
      | .error e => .error e
      | .ok msg => .ok (some (msg, bufPop buf (idx + 1)))

/-- `type TCPConn` — the promise-wrapped socket, as observable state:
the sticky error, the sticky `ended` flag, whether a read continuation is
pending in the single slot, and whether the socket is paused (`soInit`
accepts sockets created with `pauseOnConnect: true`). -/
structure TCPConn where
  err : Option String
  ended : Bool
  readerPending : Bool
  paused : Bool
deriving Repr, DecidableEq

/-- `soInit`'s initial connection state (`reader: null, err: null,
ended: false`; the socket starts paused). -/
def initConn : TCPConn :=
  { err := none, ended := false, readerPending := false, paused := true }

/-- How a pending read promise (or an immediately returned one) settles. -/
inductive Settle where
  | resolved (data : Bytes)
  | rejected (err : String)
  | pending
deriving Repr, DecidableEq

/-- `Buffer.from("EOF")` — the value the source resolves reads with at
end-of-stream. -/
def eofBytes : Bytes := toBytes "EOF"

/-- The `sock.on("data", ...)` handler: pause the socket, settle the
pending reader (if any) with the chunk, clear the slot. -/
def onData (conn : TCPConn) (data : Bytes) : TCPConn × Settle :=
  ({ conn with paused := true, readerPending := false },
   if conn.readerPending then .resolved data else .pending)

/-- The `sock.on("end", ...)` handler: set the sticky `ended` flag and
settle the pending reader (if any) with `Buffer.from("EOF")`. -/
def onEnd (conn : TCPConn) : TCPConn × Settle :=
  ({ conn with ended := true, readerPending := false },
   if conn.readerPending then .resolved eofBytes else .pending)

/-- `function soRead(conn: TCPConn): Promise<Buffer>` — reject at once on
a sticky error; on a sticky `ended` resolve at once with
`Buffer.from("EOF")` but (there is no `return` in that branch) still fall
through to store a reader in the slot and `conn.socket.resume()`;
otherwise leave the promise pending with the slot filled and the socket
resumed. -/
def soRead (conn : TCPConn) : TCPConn × Settle :=
  if conn.err.isSome then
    (conn, .rejected (conn.err.getD ""))
  else
    ({ conn with readerPending := true, paused := false },
     if conn.ended then .resolved eofBytes else .pending)

/-- `function fieldGet(headers: Buffer[], field: string): Buffer | null` —
first header whose `": "`-split key equals `field`; the returned value is
the second split segment, `""` when the split produced no second segment. -/
def fieldGet (headers : List Bytes) (field : Bytes) : Option Bytes :=
  match headers with
  | [] => none
  | h :: rest =>
      match splitSep colonSpace h with
      | k :: v :: _ => if k = field then some v else fieldGet rest field
      | k :: _ => if k = field then some [] else fieldGet rest field
      | [] => fieldGet rest field

/-- Leading decimal-digit run of `s` as a number, `none` if there is no
leading digit (the `NaN` case of `parseInt`). -/
def digitsPre (s : Bytes) : Option Nat :=
  let ds := s.takeWhile (fun b => 48 ≤ b && b ≤ 57)
  if ds.isEmpty then none else some (ds.foldl (fun a b => a * 10 + (b - 48)) 0)

/-- JS `parseInt(str)` (radix 10): skip leading whitespace, optional
sign, then the longest digit prefix; `none` is `NaN`. -/
def parseIntJS (s : Bytes) : Option Int :=
  let s1 := s.dropWhile (fun b => b = 32 || b = 9 || b = 10 || b = 13)
  match s1 with
  | 45 :: rest => (digitsPre rest).map (fun n => -(n : Int))
  | 43 :: rest => (digitsPre rest).map (fun n => (n : Int))
  | _ => (digitsPre s1).map (fun n => (n : Int))

/-- `"Content-Length"`, `"Transfer-Encoding"`, `"chunked"` as bytes. -/
def contentLengthKey : Bytes := toBytes "Content-Length"

def transferEncodingKey : Bytes := toBytes "Transfer-Encoding"

def chunkedVal : Bytes := toBytes "chunked"

/-- `function readerFromReq(conn, buf, req): BodyReader`, reduced to its
observable outcome: the declared length passed to `readerFromConnLength`
on success, or the thrown `HTTPError`.  `bodyLen` is a JS number
(`Int`): `-1` when no `Content-Length` header is found (an empty Buffer
value is still truthy, so an empty value goes through `parseInt` and
fails as `NaN`). -/
def readerFromReq (req : HTTPReq) : Except HTTPError Nat :=
  let step : Except HTTPError Int :=
    match fieldGet req.headers contentLengthKey with
    | none => .ok (-1)
    | some v =>
        match parseIntJS v with
        | none => .error ⟨400, "bad Content-Length."⟩
        | some n => .ok n
  match step with
  | .error e => .error e
  | .ok bodyLen0 =>
      let bodyAllowed := !(req.method = toBytes "GET" || req.method = toBytes "HEAD")
      let chunked := fieldGet req.headers transferEncodingKey = some chunkedVal
      if !bodyAllowed && (bodyLen0 > 0 || chunked) then
        .error ⟨400, "HTTP body not allowed."⟩
      else
        let bodyLen := if !bodyAllowed then 0 else bodyLen0
        if bodyLen ≥ 0 then
          .ok bodyLen.toNat
        else if chunked then
          .error ⟨501, "TODO for chunked encoding"⟩
        else
          .error ⟨501, "TODO for EOF"⟩

/-- One `read()` of the `BodyReader` built by
`readerFromConnLength(conn, buf, remain)`.  The connection is modelled as
the list of chunks the transport will deliver, a delivery of `[]`
standing for end-of-stream; on success the returned state is
`(chunk, remain, buf, chunks)` after the read.  `remain` starts at the
non-negative declared length, so it is a `Nat` and the `remain <= 0`
check is `remain = 0`. -/
def bodyRead (remain : Nat) (buf : DynBuf) (chunks : List Bytes) :
    Except HTTPError (Bytes × Nat × DynBuf × List Bytes) :=
  if remain = 0 then
    .ok ([], 0, buf, chunks)
  else
    let fill : Except HTTPError (DynBuf × List Bytes) :=
      if buf.length = 0 then
        let d := chunks.headD []
        let rest := chunks.tail
        let buf1 := bufPush buf d
        if d.isEmpty then
          .error ⟨400, "Unexpected EOF in request body"⟩
        else
          .ok (buf1, rest)
      else
        .ok (buf, chunks)
    match fill with
    | .error e => .error e
    | .ok (buf1, chunks1) =>
        let consume := min buf1.length remain
        .ok (buf1.data.take consume, remain - consume, bufPop buf1 consume, chunks1)

/-- Drive `read()` of the length-bounded body reader `k` times from the
given state, collecting the returned chunks — the repeated-read pattern
of the body-drain loops in `serveClient` and `writeHTTPResp`. -/
def runBodyReads : Nat → Nat → DynBuf → List Bytes → Except HTTPError (List Bytes)
  | 0, _, _, _ => .ok []
  | Nat.succ k, remain, buf, chunks =>
      match bodyRead remain buf chunks with
      | .error e => .error e
      | .ok (b, r2, buf2, ch2) => (runBodyReads k r2 buf2 ch2).map (b :: ·)

/-- Accumulator well-formedness: the live length never exceeds the
backing capacity.  It holds of the initial accumulator and is preserved
by `bufPush` and `bufPop`. -/
def good (buf : DynBuf) : Prop := buf.length ≤ capacity buf

/-- The initial accumulator `{ data: Buffer.alloc(0), length: 0 }` of
`serveClient`. -/
def bufInit : DynBuf := ⟨[], 0⟩

/-- One accumulator operation: an append (`bufPush`) or a front removal
(`bufPop`). -/
inductive BufOp where
  | push (d : Bytes)
  | pop (n : Nat)
deriving Repr, DecidableEq

def applyOp (buf : DynBuf) : BufOp → DynBuf
  | .push d => bufPush buf d
  | .pop n => bufPop buf n

/-- Run a sequence of accumulator operations. -/
def runOps (buf : DynBuf) (ops : List BufOp) : DynBuf := ops.foldl applyOp buf

/-- Concatenation of all pushed chunks, in arrival order. -/
def allPushed : List BufOp → Bytes
  | [] => []
  | .push d :: rest => d ++ allPushed rest
  | .pop _ :: rest => allPushed rest

/-- Total number of bytes popped from the front. -/
def allPopped : List BufOp → Nat
  | [] => 0
  | .push _ :: rest => allPopped rest
  | .pop n :: rest => n + allPopped rest

/-- Each pop removes no more than the bytes available at that moment. -/
def validOps : DynBuf → List BufOp → Bool
  | _, [] => true
  | buf, .push d :: rest => validOps (bufPush buf d) rest
  | buf, .pop n :: rest => decide (n ≤ buf.length) && validOps (bufPop buf n) rest

/-- A 9000-byte accumulator of `'a'` bytes with no `\n` — longer than
any size ceiling appearing in the repository (the HTTP framer's
`kMaxHeaderLen` is 8192; the line framer has none). -/
def longLineBuf : DynBuf := ⟨List.replicate 9000 97, 9000⟩

end NodeServer

namespace LineServer

open NodeServer

/-- `function cutMessage(buf: DynBuf): null | Buffer` of the newline-echo
server (src/unnamed/part_000): find the first `\n` in the live region;
`null` (`none`) when absent — there is no length check of any kind —
otherwise copy out `buf.data.subarray(0, idx + 1)` and pop `idx + 1`. -/
def cutMessage (buf : DynBuf) : Option (Bytes × DynBuf) :=
  match indexOfSub (live buf) [10] with
  | none => none
  | some idx => some (buf.data.take (idx + 1), bufPop buf (idx + 1))

end LineServer

namespace NodeServer

theorem growCapFuel_le (f : Nat) : ∀ c n : Nat, c ≤ growCapFuel f c n := by
  induction f with
  | zero => exact fun c n => le_rfl
  | succ f ih =>
      intro c n
      rw [growCapFuel]
      split
      · exact le_trans (by omega) (ih (c * 2) n)
      · exact le_rfl

theorem le_growCapFuel (f : Nat) : ∀ c n : Nat, 0 < c → n ≤ c * 2 ^ f →
    n ≤ growCapFuel f c n := by
  induction f with
  | zero =>
      intro c n _ hf
      simpa using hf
  | succ f ih =>
      intro c n hc hf
      rw [growCapFuel]
      split
      · refine ih (c * 2) n (by omega) ?_
        calc n ≤ c * 2 ^ (f + 1) := hf
        _ = c * 2 * 2 ^ f := by ring
      · omega

theorem growCap_le (c n : Nat) : c ≤ growCap c n := growCapFuel_le n c n

theorem le_growCap (c n : Nat) (hc : 0 < c) : n ≤ growCap c n := by
  refine le_growCapFuel n c n hc ?_
  calc n ≤ 2 ^ n := le_of_lt (Nat.lt_two_pow n)
  _ = 1 * 2 ^ n := (one_mul _).symm
  _ ≤ c * 2 ^ n := Nat.mul_le_mul_right _ hc

/-- The backing store after a push has room for (at least) the new
length, never shrinks, the old live prefix is preserved there, and it is
at least as long as the new length. -/
theorem bufPush_data1 (buf : DynBuf) (d : Bytes) (hg : good buf) :
    let newLen := buf.length + d.length
    let data1 :=
      if buf.data.length < newLen then
        buf.data ++ List.replicate (growCap (max buf.data.length 32) newLen - buf.data.length) 0
      else buf.data
    newLen ≤ data1.length ∧ buf.data.length ≤ data1.length ∧
      data1.take buf.length = buf.data.take buf.length := by
  intro newLen data1
  by_cases hgrow : buf.data.length < newLen
  · have hc1 : max buf.data.length 32 ≤ growCap (max buf.data.length 32) newLen :=
      growCap_le _ _
    have hc2 : newLen ≤ growCap (max buf.data.length 32) newLen :=
      le_growCap _ _ (by omega)
    have hlen : data1.length =
        buf.data.length + (growCap (max buf.data.length 32) newLen - buf.data.length) := by
      simp [data1, hgrow]
    refine ⟨by omega, by omega, ?_⟩
    have htk : data1 = buf.data ++
        List.replicate (growCap (max buf.data.length 32) newLen - buf.data.length) 0 := by
      simp [data1, hgrow]
    rw [htk, List.take_append_of_le_length (show buf.length ≤ buf.data.length from hg)]
  · have htk : data1 = buf.data := by simp [data1, hgrow]
    rw [htk]
    exact ⟨by omega, le_rfl, rfl⟩

theorem bufPush_spec (buf : DynBuf) (d : Bytes) (hg : good buf) :
    live (bufPush buf d) = live buf ++ d ∧
    (bufPush buf d).length = buf.length + d.length ∧
    capacity buf ≤ capacity (bufPush buf d) ∧
    good (bufPush buf d) := by
  obtain ⟨h1, h2, h3⟩ := bufPush_data1 buf d hg
  set newLen := buf.length + d.length with hnl
  set data1 :=
    if buf.data.length < newLen then
      buf.data ++ List.replicate (growCap (max buf.data.length 32) newLen - buf.data.length) 0
    else buf.data with hd1
  have hbp : bufPush buf d =
      { data := data1.take buf.length ++ d ++ data1.drop (buf.length + d.length),
        length := newLen } := by
    rw [bufPush]
  have hlen_take : (data1.take buf.length).length = buf.length := by
    rw [List.length_take]
    omega
  have hlen2 : (data1.take buf.length ++ d ++ data1.drop (buf.length + d.length)).length
      = data1.length := by
    simp only [List.length_append, List.length_drop, hlen_take]
    omega
  refine ⟨?_, ?_, ?_, ?_⟩
  · rw [hbp]
    show (data1.take buf.length ++ d ++ data1.drop (buf.length + d.length)).take newLen
      = live buf ++ d
    have hlAd : (data1.take buf.length ++ d).length = newLen := by
      simp [hlen_take, hnl]
    rw [List.take_left' hlAd, h3]
    rfl
  · rw [hbp]
  · rw [hbp]
    show buf.data.length ≤ _
    simp only [capacity, hlen2]
    omega
  · rw [hbp]
    show newLen ≤ _
    simp only [capacity, hlen2]
    omega

theorem good_bufInit : good bufInit := le_refl 0

theorem capacity_bufPop (buf : DynBuf) (n : Nat) :
    capacity (bufPop buf n) = capacity buf := by
  simp only [bufPop, capacity, List.length_append, List.length_take, List.length_drop]
  omega

theorem good_bufPop (buf : DynBuf) (n : Nat) (hg : good buf) :
    good (bufPop buf n) := by
  simp only [good, capacity_bufPop]
  show buf.length - n ≤ _
  exact le_trans (Nat.sub_le _ _) hg

theorem live_bufPop (buf : DynBuf) (n : Nat) (hg : good buf) (hn : n ≤ buf.length) :
    live (bufPop buf n) = (live buf).drop n := by
  have he : min buf.length buf.data.length = buf.length := min_eq_left hg
  have hcop : ((buf.data.drop n).take (buf.length - n)).length = buf.length - n := by
    rw [List.length_take, List.length_drop]
    omega
  show ((buf.data.drop n).take (min buf.length buf.data.length - n) ++
      buf.data.drop (min buf.length buf.data.length - n)).take (buf.length - n)
    = (buf.data.take buf.length).drop n
  rw [he, List.take_append_of_le_length (by omega), List.take_take, min_self,
    List.drop_take]

theorem good_runOps (ops : List BufOp) : ∀ buf : DynBuf, good buf → good (runOps buf ops) := by
  induction ops with
  | nil => exact fun buf hg => hg
  | cons op rest ih =>
      intro buf hg
      cases op with
      | push d => exact ih (bufPush buf d) (bufPush_spec buf d hg).2.2.2
      | pop n => exact ih (bufPop buf n) (good_bufPop buf n hg)

theorem capacity_applyOp (buf : DynBuf) (op : BufOp) (hg : good buf) :
    capacity buf ≤ capacity (applyOp buf op) := by
  cases op with
  | push d => exact (bufPush_spec buf d hg).2.2.1
  | pop n => exact le_of_eq (capacity_bufPop buf n).symm

/-- Content law for any run of valid operations from a well-formed
accumulator: the live region is the initial live bytes plus everything
pushed, minus the popped prefix. -/
theorem runOps_live (ops : List BufOp) : ∀ buf : DynBuf, good buf →
    validOps buf ops = true →
    live (runOps buf ops) = (live buf ++ allPushed ops).drop (allPopped ops) := by
  induction ops with
  | nil =>
      intro buf _ _
      simp [runOps, allPushed, allPopped]
  | cons op rest ih =>
      intro buf hg hv
      cases op with
      | push d =>
          obtain ⟨hl, _, _, hgood⟩ := bufPush_spec buf d hg
          have hv' : validOps (bufPush buf d) rest = true := hv
          have := ih (bufPush buf d) hgood hv'
          show live (runOps (bufPush buf d) rest) = _
          rw [this, hl, allPushed, allPopped, List.append_assoc]
      | pop n =>
          have hv2 := hv
          rw [validOps, Bool.and_eq_true, decide_eq_true_iff] at hv2
          obtain ⟨hn, hv'⟩ := hv2
          have hgood := good_bufPop buf n hg
          have := ih (bufPop buf n) hgood hv'
          show live (runOps (bufPop buf n) rest) = _
          rw [this, live_bufPop buf n hg hn, allPushed, allPopped]
          have hlen : (live buf).length = buf.length := by
            rw [live, List.length_take]
            exact min_eq_left hg
          have hsplit : (live buf ++ allPushed rest).drop n =
              (live buf).drop n ++ allPushed rest :=
            List.drop_append_of_le_length (by omega)
          rw [← List.drop_drop, hsplit]

/-- Bytes of `l` with no occurrence of `c` have no index of `[c]`. -/
theorem indexOfSub_singleton_none (l : Bytes) (c : Byte) (h : ∀ b ∈ l, b ≠ c) :
    indexOfSub l [c] = none := by
  induction l with
  | nil => rfl
  | cons x t ih =>
      have hx : x ≠ c := h x (List.mem_cons_self x t)
      have hpe : prefEq [c] (x :: t) = false := by
        simp [prefEq, beq_iff_eq]
        exact fun hc => hx hc.symm
      show (if prefEq [c] (x :: t) then some 0 else (indexOfSub t [c]).map (· + 1)) = none
      rw [hpe]
      simp [ih (fun b hb => h b (List.mem_cons_of_mem x hb))]

/-- C1: the spec claims `"GET / HTTP/1.1\r\nHost: x\r\n\r\n"` parses to
method `GET`, target `/`, version `1.1`, one header `Host: x`, with no
error.  The code instead throws `HTTPError 400`: `splitLines` also emits
the empty line sitting between the final two `\r\n` pairs of the header
block, and `validateHeader` rejects the empty line.  The same happens
for every complete header block, since the parse window always ends in
`\r\n\r\n`. -/
theorem c1_canonical_request_rejected :
    splitLines (toBytes "GET / HTTP/1.1\r\nHost: x\r\n\r\n") =
      [toBytes "GET / HTTP/1.1", toBytes "Host: x", []] ∧
    parseHTTPReq (toBytes "GET / HTTP/1.1\r\nHost: x\r\n\r\n") =
      .error ⟨400, "Invalid header, line: "⟩ ∧
    cutMessage ⟨toBytes "GET / HTTP/1.1\r\nHost: x\r\n\r\n", 27⟩ =
      .error ⟨400, "Invalid header, line: "⟩ := by
  refine ⟨by decide, by decide, by decide⟩

/-- C2: the spec claims end-of-stream settles the pending read with an
empty chunk and later reads resolve to empty without touching the
transport.  The code instead resolves with the 3-byte buffer
`Buffer.from("EOF")`, and `soRead` on an ended connection (missing a
`return` after the early `resolve`) still stores a reader in the slot
and resumes the socket. -/
theorem c2_end_of_stream_resolves_EOF_bytes_and_resumes :
    (onEnd { initConn with readerPending := true }).2 = Settle.resolved eofBytes ∧
    eofBytes.length = 3 ∧
    (soRead { initConn with ended := true }).2 = Settle.resolved eofBytes ∧
    (soRead { initConn with ended := true }).1.paused = false ∧
    (soRead { initConn with ended := true }).1.readerPending = true := by
  refine ⟨by decide, by decide, by decide, by decide, by decide⟩

/-- C3: the claim quantifies over successful header-block parses, after
which `bufPop buf (idx + 1)` would leave the live region starting with
`\r\n\r`.  No successful parse exists: `parseHTTPReq` throws on every
complete header block (see C1), the exception propagates out of
`cutMessage` before `bufPop` runs, and the accumulator is never popped.
Witnessed here on a second concrete request with body bytes after the
terminator. -/
theorem c3_pop_unreachable_because_parse_always_throws :
    cutMessage ⟨toBytes "POST /echo HTTP/1.1\r\nHost: y\r\n\r\nBODY", 36⟩ =
      .error ⟨400, "Invalid header, line: "⟩ := by
  decide

/-- C4 counterexample: a GET request with the non-empty `Content-Length`
value `"0"` is accepted by `readerFromReq` (it yields a length-0 body
reader), not rejected with 400: `parseInt("0") = 0` and the rejection
condition requires `bodyLen > 0`. -/
theorem c4_counterexample_content_length_zero_accepted :
    readerFromReq ⟨toBytes "GET", toBytes "/", toBytes "HTTP/1.1",
      [toBytes "Content-Length: 0"]⟩ = .ok 0 := by
  decide

/-- C4 (amended): a GET request whose `Content-Length` header value
parses to a number greater than 0 fails with `HTTPError 400`
(`HTTP body not allowed.`). -/
theorem c4_amended_get_positive_content_length_rejected (req : HTTPReq) (v : Bytes)
    (n : Int) (hm : req.method = toBytes "GET")
    (hv : fieldGet req.headers contentLengthKey = some v)
    (hn : parseIntJS v = some n) (hpos : 0 < n) :
    readerFromReq req = .error ⟨400, "HTTP body not allowed."⟩ := by
  simp [readerFromReq, hv, hn, hm, hpos, gt_iff_lt]

theorem c4_witness :
    fieldGet [toBytes "Content-Length: 5"] contentLengthKey = some (toBytes "5") ∧
    parseIntJS (toBytes "5") = some 5 ∧
    readerFromReq ⟨toBytes "GET", toBytes "/", toBytes "HTTP/1.1",
      [toBytes "Content-Length: 5"]⟩ = .error ⟨400, "HTTP body not allowed."⟩ :=
  ⟨by decide, by decide,
    c4_amended_get_positive_content_length_rejected
      ⟨toBytes "GET", toBytes "/", toBytes "HTTP/1.1", [toBytes "Content-Length: 5"]⟩
      (toBytes "5") 5 rfl (by decide) (by decide) (by decide)⟩

/-- C5: a length-bounded body reader with declared length 5 over a
connection delivering `"ab"` then `"cde"` yields `"ab"`, then `"cde"`,
then an empty chunk, then an empty chunk again (idempotent end). -/
theorem c5_length_five_reader_chunk_sequence :
    runBodyReads 4 5 bufInit [toBytes "ab", toBytes "cde"] =
      .ok [toBytes "ab", toBytes "cde", [], []] := by
  decide

/-- C6: for every operation sequence from the empty accumulator whose
pops never exceed the bytes available, the live region after the run is
exactly the concatenation of all pushed bytes with the popped prefix
removed — nothing duplicated or dropped. -/
theorem c6_accumulator_round_trip_content_law (ops : List BufOp)
    (h : validOps bufInit ops = true) :
    live (runOps bufInit ops) = (allPushed ops).drop (allPopped ops) := by
  have hmain := runOps_live ops bufInit good_bufInit h
  simpa [bufInit, live] using hmain

theorem c6_witness :
    validOps bufInit [BufOp.push (toBytes "ab"), BufOp.pop 1, BufOp.push (toBytes "c")]
      = true ∧
    live (runOps bufInit [BufOp.push (toBytes "ab"), BufOp.pop 1, BufOp.push (toBytes "c")])
      = (allPushed [BufOp.push (toBytes "ab"), BufOp.pop 1, BufOp.push (toBytes "c")]).drop
          (allPopped [BufOp.push (toBytes "ab"), BufOp.pop 1, BufOp.push (toBytes "c")]) :=
  ⟨by decide, c6_accumulator_round_trip_content_law _ (by decide)⟩

/-- C7: across every operation sequence from the empty accumulator, one
more operation never decreases the backing capacity (pops keep the
backing store; pushes only grow it), and after a push the capacity is at
least the logical length. -/
theorem c7_capacity_monotone_and_covers_length (ops : List BufOp) (op : BufOp)
    (d : Bytes) :
    capacity (runOps bufInit ops) ≤ capacity (runOps bufInit (ops ++ [op])) ∧
    (op = BufOp.push d →
      (runOps bufInit (ops ++ [op])).length ≤ capacity (runOps bufInit (ops ++ [op]))) := by
  have hrun : runOps bufInit (ops ++ [op]) = applyOp (runOps bufInit ops) op := by
    simp [runOps, List.foldl_append]
  constructor
  · rw [hrun]
    exact capacity_applyOp _ op (good_runOps ops bufInit good_bufInit)
  · intro _
    exact good_runOps (ops ++ [op]) bufInit good_bufInit

theorem c7_witness :
    capacity (runOps bufInit [BufOp.push (toBytes "ab")]) ≤
      capacity (runOps bufInit ([BufOp.push (toBytes "ab")] ++ [BufOp.push (toBytes "c")])) ∧
    (runOps bufInit ([BufOp.push (toBytes "ab")] ++ [BufOp.push (toBytes "c")])).length ≤
      capacity (runOps bufInit ([BufOp.push (toBytes "ab")] ++ [BufOp.push (toBytes "c")])) :=
  ⟨(c7_capacity_monotone_and_covers_length [BufOp.push (toBytes "ab")]
      (BufOp.push (toBytes "c")) (toBytes "c")).1,
   (c7_capacity_monotone_and_covers_length [BufOp.push (toBytes "ab")]
      (BufOp.push (toBytes "c")) (toBytes "c")).2 rfl⟩

/-- An accumulator whose live region holds no `\n` byte makes the line
framer return `null` (shared helper for the C8 theorems). -/
theorem lineCutMessage_none_of_no_newline (buf : DynBuf)
    (h : ∀ b ∈ live buf, b ≠ 10) :
    LineServer.cutMessage buf = none := by
  show (match indexOfSub (live buf) [10] with
        | none => none
        | some idx => some (buf.data.take (idx + 1), bufPop buf (idx + 1))) = none
  rw [indexOfSub_singleton_none _ _ h]

/-- C8 counterexample: on a 9000-byte accumulator with no `\n` — far
beyond the HTTP framer's 8 KiB ceiling — the line framer's `cutMessage`
still returns `null` (incomplete).  It has no length check at all, so it
never raises a too-large error on unterminated input. -/
theorem c8_counterexample_long_unterminated_input_waits :
    LineServer.cutMessage longLineBuf = none := by
  have hlive : live longLineBuf = List.replicate 9000 97 := by
    show List.take 9000 (List.replicate 9000 97) = List.replicate 9000 97
    rw [List.take_replicate, min_self]
  refine lineCutMessage_none_of_no_newline _ ?_
  intro b hb
  rw [hlive, List.mem_replicate] at hb
  rw [hb.2]
  decide

/-- C8 (amended): whenever the live region contains no `\n` byte, the
line framer signals incomplete (`null`), whatever the accumulated
length; no maximum unterminated length is enforced and no error is ever
raised by it. -/
theorem c8_amended_no_newline_always_incomplete (buf : DynBuf)
    (h : ∀ b ∈ live buf, b ≠ 10) :
    LineServer.cutMessage buf = none :=
  lineCutMessage_none_of_no_newline buf h

theorem c8_witness :
    LineServer.cutMessage ⟨List.replicate 9000 98, 9000⟩ = none := by
  have hlive : live ⟨List.replicate 9000 98, 9000⟩ = List.replicate 9000 98 := by
    show List.take 9000 (List.replicate 9000 98) = List.replicate 9000 98
    rw [List.take_replicate, min_self]
  refine c8_amended_no_newline_always_incomplete _ ?_
  intro b hb
  rw [hlive, List.mem_replicate] at hb
  rw [hb.2]
  decide

/-- C9 counterexample: a GET request with no `Content-Length` header but
with `Transfer-Encoding: chunked` does not get a length-0 reader —
`readerFromReq` throws `HTTPError 400` (`HTTP body not allowed.`), so
the claim's universal statement fails. -/
theorem c9_counterexample_chunked_get_rejected :
    readerFromReq ⟨toBytes "GET", toBytes "/", toBytes "HTTP/1.1",
      [toBytes "Transfer-Encoding: chunked"]⟩ =
      .error ⟨400, "HTTP body not allowed."⟩ := by
  decide

/-- C9 (amended): a parsed GET or HEAD request with no `Content-Length`
header and no `Transfer-Encoding: chunked` header gets a length-bounded
reader of declared length 0 from `readerFromReq` — the absent length is
forced to 0 for body-less methods, never reaching the 501 fall-through. -/
theorem c9_amended_get_head_without_length_gets_zero_reader (req : HTTPReq)
    (hm : req.method = toBytes "GET" ∨ req.method = toBytes "HEAD")
    (hcl : fieldGet req.headers contentLengthKey = none)
    (hte : ¬ fieldGet req.headers transferEncodingKey = some chunkedVal) :
    readerFromReq req = .ok 0 := by
  rcases hm with hm | hm <;>
    simp [readerFromReq, hcl, hte, hm]

theorem c9_witness :
    fieldGet ([] : List Bytes) contentLengthKey = none ∧
    readerFromReq ⟨toBytes "HEAD", toBytes "/", toBytes "HTTP/1.1", []⟩ = .ok 0 :=
  ⟨by decide,
    c9_amended_get_head_without_length_gets_zero_reader
      ⟨toBytes "HEAD", toBytes "/", toBytes "HTTP/1.1", []⟩
      (Or.inr rfl) (by decide) (by decide)⟩

/-- C10: header lookup splits the line `"Host: a: b"` at every `": "`
and keeps only the second segment, so looking up `Host` returns just
`"a"`, silently dropping `": b"`. -/
theorem c10_fieldGet_truncates_value_at_second_separator :
    splitSep colonSpace (toBytes "Host: a: b") =
      [toBytes "Host", toBytes "a", toBytes "b"] ∧
    fieldGet [toBytes "Host: a: b"] (toBytes "Host") = some (toBytes "a") := by
  refine ⟨by decide, by decide⟩

end NodeServer
